import Mathlib

/-!
Verification of the `pr-conventional-commit-labeler` action
(`action/labels.py`) against its design document.

The embedding models the pure core of `Labels.run`: configuration
validation, matcher construction, commit scanning, priority resolution,
and the final label-set computation, together with the sequence of
platform (network) calls the run performs and the process exit behaviour
of `main`.
-/

/-! ### The compiled commit-type matcher

`Labels.run` compiles, for each commit type, the regex
`rf'{message}\s?[:|-]'` with `re.I` and applies it with `.match`
(anchored at the start of the commit message).  Inside the character
class `[:|-]` the bar is a literal, so the separator set is
`:`, `|`, `-`.  `\s?` permits at most one whitespace character.
We model the keyword as a literal string, matched case-insensitively.
-/

/-- The separator characters of the character class `[:|-]` of the
compiled pattern: inside a class the bar is a literal character. -/
def codeSepChars : List Char := [':', '|', '-']

/-- ASCII whitespace characters accepted by the regex token `\s`. -/
def pySpaceChars : List Char := [' ', '\t', '\n', '\r', '\x0b', '\x0c']

/-- Whether `c` is matched by the regex token `\s` (ASCII fragment). -/
def isPySpace (c : Char) : Bool := decide (c ∈ pySpaceChars)

/-- Case-insensitive character comparison, as `re.I` applies to the
ASCII keyword letters. -/
def ciEq (a b : Char) : Bool := decide (a.toLower = b.toLower)

/-- Consume the literal keyword `ts` case-insensitively from the front of
`ms`; return the remaining characters on success.  This is how the
regex engine matches the literal part of the compiled pattern under
`re.I`. -/
def ciStrip : List Char → List Char → Option (List Char)
  | [], ms => some ms
  | _ :: _, [] => none
  | t :: ts, m :: ms => if ciEq t m then ciStrip ts ms else none

/-- Match the tail regex `\s?[sep-class]` at the front of `cs`: either the
first character is a separator, or it is a whitespace character and the
next one is a separator (the `\s?` backtracks when needed). -/
def sepTail (seps : List Char) : List Char → Bool
  | [] => false
  | [c] => decide (c ∈ seps)
  | c :: d :: _ => decide (c ∈ seps) || (isPySpace c && decide (d ∈ seps))

/-- `re.compile(rf'{t}\s?[cls]', re.I).match(m)` for a literal keyword
`t` and a separator class `cls`, as a Boolean. -/
def matchKeyword (seps : List Char) (t m : String) : Bool :=
  match ciStrip t.data m.data with
  | none => false
  | some rest => sepTail seps rest

/-- The matcher the code compiles at `labels.py` line 100:
`re.compile(rf'{t}\s?[:|-]', flags=re.I).match(m)` for keyword `t`. -/
def patternMatch (t m : String) : Bool := matchKeyword codeSepChars t m

/-- Declarative characterisation, following the spec's words: the message
begins with the keyword (case-insensitively), immediately followed by
optional whitespace (at most one character) and then a separator drawn
from `seps`. -/
def SpecMatch (seps : List Char) (t m : String) : Prop :=
  ∃ pre w sep rest, m.data = pre ++ w ++ sep :: rest ∧
    pre.map Char.toLower = t.data.map Char.toLower ∧
    (w = [] ∨ ∃ c, w = [c] ∧ isPySpace c = true) ∧
    sep ∈ seps

theorem ciStrip_eq_some_iff (ts : List Char) :
    ∀ ms rest, ciStrip ts ms = some rest ↔
      ∃ pre, ms = pre ++ rest ∧ pre.map Char.toLower = ts.map Char.toLower := by
  induction ts with
  | nil =>
    intro ms rest
    constructor
    · intro h
      refine ⟨[], ?_, rfl⟩
      simpa [ciStrip] using h
    · rintro ⟨pre, hms, hmap⟩
      have : pre = [] := by simpa using hmap
      subst this
      simpa [ciStrip] using hms
  | cons t ts ih =>
    intro ms rest
    cases ms with
    | nil =>
      constructor
      · intro h
        simp [ciStrip] at h
      · rintro ⟨pre, hms, hmap⟩
        rcases List.append_eq_nil.mp hms.symm with ⟨hp, -⟩
        subst hp
        simp at hmap
    | cons m ms' =>
      constructor
      · intro h
        by_cases hc : ciEq t m
        · simp only [ciStrip] at h
          rw [if_pos hc] at h
          rcases (ih ms' rest).mp h with ⟨pre', hms', hmap'⟩
          refine ⟨m :: pre', by simp [hms'], ?_⟩
          have hlow : t.toLower = m.toLower := by
            simpa [ciEq] using hc
          simp [hlow.symm, hmap']
        · simp [ciStrip, hc] at h
      · rintro ⟨pre, hms, hmap⟩
        cases pre with
        | nil => simp at hmap
        | cons p pre' =>
          obtain ⟨hpm, hms'⟩ : m = p ∧ ms' = pre' ++ rest := by
            simpa using hms
          obtain ⟨hlow, hmap'⟩ :
              p.toLower = t.toLower ∧
                pre'.map Char.toLower = ts.map Char.toLower := by
            simpa using hmap
          have hc : ciEq t m = true := by
            simp [ciEq, hpm, hlow]
          simp only [ciStrip, hc, if_true]
          exact (ih ms' rest).mpr ⟨pre', hms', hmap'⟩

theorem sepTail_eq_true_iff (seps : List Char) (cs : List Char) :
    sepTail seps cs = true ↔
      ∃ w sep rest, cs = w ++ sep :: rest ∧
        (w = [] ∨ ∃ c, w = [c] ∧ isPySpace c = true) ∧ sep ∈ seps := by
  cases cs with
  | nil =>
    simp only [sepTail]
    constructor
    · intro h; cases h
    · rintro ⟨w, sep, rest, h, -, -⟩
      exact absurd h.symm (by simp)
  | cons c cs' =>
    cases cs' with
    | nil =>
      simp only [sepTail]
      constructor
      · intro h
        exact ⟨[], c, [], by simp, Or.inl rfl, of_decide_eq_true h⟩
      · rintro ⟨w, sep, rest, h, hw, hsep⟩
        rcases hw with hw | ⟨d, hw, -⟩
        · subst hw
          simp only [List.nil_append, List.cons.injEq] at h
          rcases h with ⟨hc, -⟩
          subst hc
          exact decide_eq_true hsep
        · subst hw
          simp only [List.cons_append, List.cons.injEq] at h
          rcases h with ⟨-, h2⟩
          exact absurd h2.symm (by simp)
    | cons d cs'' =>
      simp only [sepTail, Bool.or_eq_true, Bool.and_eq_true]
      constructor
      · rintro (h | ⟨hsp, hd⟩)
        · exact ⟨[], c, d :: cs'', by simp, Or.inl rfl, of_decide_eq_true h⟩
        · exact ⟨[c], d, cs'', by simp, Or.inr ⟨c, rfl, hsp⟩,
            of_decide_eq_true hd⟩
      · rintro ⟨w, sep, rest, h, hw, hsep⟩
        rcases hw with hw | ⟨e, hw, hsp⟩
        · subst hw
          obtain ⟨hc, -⟩ : c = sep ∧ d :: cs'' = rest := by
            simpa using h
          subst hc
          exact Or.inl (decide_eq_true hsep)
        · subst hw
          obtain ⟨hce, hd, -⟩ : c = e ∧ d = sep ∧ cs'' = rest := by
            simpa using h
          refine Or.inr ⟨?_, ?_⟩
          · rw [hce]; exact hsp
          · rw [hd]; exact decide_eq_true hsep

theorem matchKeyword_iff (seps : List Char) (t m : String) :
    matchKeyword seps t m = true ↔ SpecMatch seps t m := by
  unfold matchKeyword SpecMatch
  constructor
  · intro h
    cases hcs : ciStrip t.data m.data with
    | none => rw [hcs] at h; cases h
    | some rest =>
      rw [hcs] at h
      rcases (ciStrip_eq_some_iff t.data m.data rest).mp hcs with ⟨pre, hm, hmap⟩
      rcases (sepTail_eq_true_iff seps rest).mp h with ⟨w, sep, rest', hr, hw, hsep⟩
      exact ⟨pre, w, sep, rest', by rw [hm, hr, List.append_assoc], hmap, hw, hsep⟩
  · rintro ⟨pre, w, sep, rest, hm, hmap, hw, hsep⟩
    have hcs : ciStrip t.data m.data = some (w ++ sep :: rest) :=
      (ciStrip_eq_some_iff t.data m.data (w ++ sep :: rest)).mpr
        ⟨pre, by rw [hm, List.append_assoc], hmap⟩
    rw [hcs]
    exact (sepTail_eq_true_iff seps (w ++ sep :: rest)).mpr
      ⟨w, sep, rest, rfl, hw, hsep⟩

/-! ### Data model

Mirrors the data consumed by `Labels.run`: the commit types supplied by
the changelog configuration (`collector.commit_types()`), the parsed
label configuration (`labels`, `groups`, `disable_on`,
`only_highest_priority`) and the pull-request context fetched from the
platform. -/

/-- One entry of `collector.commit_types()`: a changelog group name and
the message keyword of its pattern. -/
structure CommitType where
  group : String
  message : String
  deriving DecidableEq, Repr

/-- One entry of the `labels` list of the label configuration:
`{name, priority}` with priority defaulting to 0 (`x.get("priority", 0)`). -/
structure LabelDef where
  name : String
  priority : Int
  deriving DecidableEq, Repr

/-- One entry of the `groups` list of the label configuration. -/
structure GroupMapping where
  group : String
  label : String
  deriving DecidableEq, Repr

/-- The parsed label configuration document. -/
structure Config where
  labels : List LabelDef
  groups : List GroupMapping
  disable_on : Option String
  only_highest_priority : Bool
  deriving DecidableEq, Repr

/-- The pull-request context: the identifier passed on the command line
(`None` or the empty string count as missing, Python truthiness), the
labels currently on the PR, and the commit messages in order. -/
structure PRContext where
  pullRequest : Option String
  prLabels : List String
  commits : List String
  deriving DecidableEq, Repr

/-- Python truthiness test `not self.pull_request`. -/
def falsyStr : Option String → Bool
  | none => true
  | some s => s == ""

/-- Python substring test `needle in hay` on strings, via character
lists. -/
def strContains (needle hay : String) : Bool :=
  go needle.data hay.data
where
  startsWith : List Char → List Char → Bool
    | [], _ => true
    | _ :: _, [] => false
    | a :: as, b :: bs => a == b && startsWith as bs
  go (n : List Char) : List Char → Bool
    | [] => startsWith n []
    | c :: cs => startsWith n (c :: cs) || go n cs

/-- The reference validation loop of `Labels.run` (lines 89-95): for each
group mapping, its `group` must be a known changelog group and its
`label` a configured label name; the first violation raises
`LabelsError` with a message naming the missing reference. -/
def checkGroups : List GroupMapping → List String → List String →
    Except String Unit
  | [], _, _ => Except.ok ()
  | g :: gs, cgs, lk =>
    if g.group ∉ cgs then
      Except.error (g.group ++ " not found in " ++ String.intercalate ", " cgs)
    else if g.label ∉ lk then
      Except.error (g.label ++ " not found in " ++ String.intercalate ", " lk)
    else checkGroups gs cgs lk

/-- The `lookup` list (lines 104-111): for each group mapping, the first
configured label with the mapped name, paired with the message keyword of
the first commit type whose group matches.  After successful validation
both lookups succeed; the code's `next(...)` would raise if the commit
type were absent, which validation rules out. -/
def buildLookup (types : List CommitType) (groups : List GroupMapping)
    (labels : List LabelDef) : List (String × LabelDef) :=
  groups.filterMap fun g =>
    match labels.find? (fun l => g.label == l.name) with
    | none => none
    | some l =>
      match types.find? (fun t => t.group == g.group) with
      | none => none
      | some t => some (t.message, l)

/-- The scan loop (lines 139-144): for each lookup entry, the label is
collected when some commit message matches its pattern (`break` after
the first match: at most one instance per entry). -/
def collectLabels (lookup : List (String × LabelDef))
    (commits : List String) : List LabelDef :=
  lookup.filterMap fun ml =>
    if commits.any (fun c => patternMatch ml.1 c) then some ml.2 else none

/-- Sort key order of line 145-147: descending priority. -/
def prioGE (a b : LabelDef) : Prop := b.priority ≤ a.priority

instance : DecidableRel prioGE := fun a b =>
  inferInstanceAs (Decidable (b.priority ≤ a.priority))

instance : IsTotal LabelDef prioGE :=
  ⟨fun a b => le_total b.priority a.priority⟩

instance : IsTrans LabelDef prioGE :=
  ⟨fun _ _ _ h1 h2 => le_trans h2 h1⟩

/-- `sorted(labels, key=priority, reverse=True)`: Python's `sorted` is a
stable sort; any stable sort by the same key computes the same list, so
it is modelled by stable insertion sort. -/
def sortByPriorityDesc (ls : List LabelDef) : List LabelDef :=
  List.insertionSort prioGE ls

/-- Lines 145-149: sort the collected labels by priority descending and,
when `only_highest_priority` is set, keep only the first. -/
def resolveLabels (types : List CommitType) (cfg : Config)
    (commits : List String) : List LabelDef :=
  let sorted :=
    sortByPriorityDesc (collectLabels (buildLookup types cfg.groups cfg.labels) commits)
  if cfg.only_highest_priority then sorted.take 1 else sorted

/-- `labels_key` (line 86): the configured label-name universe as a set. -/
def labelsKeyOf (cfg : Config) : Finset String :=
  (cfg.labels.map LabelDef.name).toFinset

/-- `unique_labels` (line 129): current PR labels outside the configured
label universe. -/
def uniqueLabelsOf (cfg : Config) (prLabels : List String) : Finset String :=
  prLabels.toFinset \ labelsKeyOf cfg

/-- Lines 150-151: names of the surviving matched labels, unioned with
the kept unmanaged labels. -/
def resolvedSet (types : List CommitType) (cfg : Config)
    (ctx : PRContext) : Finset String :=
  ((resolveLabels types cfg ctx.commits).map LabelDef.name).toFinset ∪
    uniqueLabelsOf cfg ctx.prLabels

/-- Line 124: `if disable_on and any(disable_on in x for x in labels)` —
a `None` or empty sentinel is falsy and disables nothing. -/
def disabledCheck (d : Option String) (prLabels : List String) : Bool :=
  match d with
  | none => false
  | some s => !(s == "") && prLabels.any (fun x => strContains s x)

/-- The platform (network) calls `Labels.run` can perform, in order. -/
inductive NetCall where
  | getLabels
  | getCommits
  | deleteAll
  | setAll (ls : Finset String)
  deriving DecidableEq

/-- How a successful run ends: skipped via the disable sentinel, or with
a replacement of the PR's labels by the resolved set. -/
inductive RunOutcome where
  | disabled
  | applied (labels : Finset String)
  deriving DecidableEq

instance : DecidableEq (Except String RunOutcome) := fun a b =>
  match a, b with
  | Except.ok x, Except.ok y =>
    if h : x = y then isTrue (by rw [h]) else isFalse (by simp [h])
  | Except.error e, Except.error f =>
    if h : e = f then isTrue (by rw [h]) else isFalse (by simp [h])
  | Except.ok _, Except.error _ => isFalse (by simp)
  | Except.error _, Except.ok _ => isFalse (by simp)

instance : DecidableEq (Except String Unit) := fun a b =>
  match a, b with
  | Except.ok x, Except.ok y => isTrue (by cases x; cases y; rfl)
  | Except.error e, Except.error f =>
    if h : e = f then isTrue (by rw [h]) else isFalse (by simp [h])
  | Except.ok _, Except.error _ => isFalse (by simp)
  | Except.error _, Except.ok _ => isFalse (by simp)

/-- The pure core of `Labels.run`: validation, then (inside the API
context) the missing-identifier check, the label fetch, the disable
check, the commit fetch, the resolution, and finally the delete/set
pair.  Returns the platform calls performed and the outcome. -/
def run (types : List CommitType) (cfg : Config) (ctx : PRContext) :
    List NetCall × Except String RunOutcome :=
  match checkGroups cfg.groups (types.map CommitType.group)
      (cfg.labels.map LabelDef.name) with
  | Except.error e => ([], Except.error e)
  | Except.ok _ =>
    if falsyStr ctx.pullRequest then
      ([], Except.error "no PR identifier found")
    else if disabledCheck cfg.disable_on ctx.prLabels then
      ([NetCall.getLabels], Except.ok RunOutcome.disabled)
    else
      ([NetCall.getLabels, NetCall.getCommits, NetCall.deleteAll,
        NetCall.setAll (resolvedSet types cfg ctx)],
        Except.ok (RunOutcome.applied (resolvedSet types cfg ctx)))

/-- The exit behaviour of `main` (lines 169-184): exit code 0 on success,
and on a `LabelsError` the message prefixed with the cross mark printed
to the error console and exit code 1. -/
def mainExit (r : Except String RunOutcome) : Nat × Option String :=
  match r with
  | Except.ok _ => (0, none)
  | Except.error e => (1, some ("❌ " ++ e))

/-! ### Helper lemmas about the run -/

theorem run_snd_applied {types : List CommitType} {cfg : Config}
    {ctx : PRContext} {S : Finset String}
    (h : (run types cfg ctx).2 = Except.ok (RunOutcome.applied S)) :
    S = resolvedSet types cfg ctx := by
  unfold run at h
  split at h
  · simp at h
  · by_cases hp : falsyStr ctx.pullRequest
    · rw [if_pos hp] at h
      simp at h
    · rw [if_neg hp] at h
      by_cases hd : disabledCheck cfg.disable_on ctx.prLabels
      · rw [if_pos hd] at h
        simp at h
      · rw [if_neg hd] at h
        simp at h
        exact h.symm

theorem mem_buildLookup {types : List CommitType} {groups : List GroupMapping}
    {labels : List LabelDef} {ml : String × LabelDef}
    (h : ml ∈ buildLookup types groups labels) :
    (∃ t ∈ types, ml.1 = t.message) ∧ ml.2 ∈ labels := by
  unfold buildLookup at h
  rcases List.mem_filterMap.mp h with ⟨g, -, hg⟩
  cases hl : labels.find? (fun l => g.label == l.name) with
  | none => rw [hl] at hg; cases hg
  | some l =>
    rw [hl] at hg
    cases ht : types.find? (fun t => t.group == g.group) with
    | none => rw [ht] at hg; cases hg
    | some t =>
      rw [ht] at hg
      obtain ⟨h1, h2⟩ : t.message = ml.1 ∧ l = ml.2 := by
        cases ml
        simpa using hg
      constructor
      · exact ⟨t, List.mem_of_find?_eq_some ht, h1.symm⟩
      · rw [← h2]
        exact List.mem_of_find?_eq_some hl

theorem mem_collectLabels {lookup : List (String × LabelDef)}
    {commits : List String} {l : LabelDef}
    (h : l ∈ collectLabels lookup commits) :
    ∃ ml ∈ lookup, ml.2 = l ∧
      commits.any (fun c => patternMatch ml.1 c) = true := by
  unfold collectLabels at h
  rcases List.mem_filterMap.mp h with ⟨ml, hml, hf⟩
  by_cases hc : commits.any (fun c => patternMatch ml.1 c)
  · rw [if_pos hc] at hf
    exact ⟨ml, hml, by simpa using hf, hc⟩
  · rw [if_neg hc] at hf
    cases hf

theorem mem_resolveLabels {types : List CommitType} {cfg : Config}
    {commits : List String} {l : LabelDef}
    (h : l ∈ resolveLabels types cfg commits) : l ∈ cfg.labels := by
  unfold resolveLabels at h
  have hs : l ∈ sortByPriorityDesc
      (collectLabels (buildLookup types cfg.groups cfg.labels) commits) := by
    by_cases hh : cfg.only_highest_priority
    · rw [if_pos hh] at h
      exact List.mem_of_mem_take h
    · rwa [if_neg hh] at h
  have hc : l ∈ collectLabels (buildLookup types cfg.groups cfg.labels) commits :=
    (List.mem_insertionSort prioGE).mp hs
  rcases mem_collectLabels hc with ⟨ml, hml, hml2, -⟩
  rw [← hml2]
  exact (mem_buildLookup hml).2

theorem checkGroups_error {gs : List GroupMapping} (cgs lk : List String)
    (h : ¬ ∀ g ∈ gs, g.group ∈ cgs ∧ g.label ∈ lk) :
    ∃ e, checkGroups gs cgs lk = Except.error e ∧
      ∃ g ∈ gs,
        (g.group ∉ cgs ∧ ∃ s, e = g.group ++ " not found in " ++ s) ∨
        (g.label ∉ lk ∧ ∃ s, e = g.label ++ " not found in " ++ s) := by
  induction gs with
  | nil => exact absurd (by simp) h
  | cons g gs ih =>
    by_cases hg : g.group ∈ cgs
    · by_cases hl : g.label ∈ lk
      · have h' : ¬ ∀ x ∈ gs, x.group ∈ cgs ∧ x.label ∈ lk := by
          intro hall
          exact h (by
            intro x hx
            rcases List.mem_cons.mp hx with hx | hx
            · rw [hx]; exact ⟨hg, hl⟩
            · exact hall x hx)
        rcases ih h' with ⟨e, he, g', hg', hcase⟩
        refine ⟨e, ?_, g', List.mem_cons_of_mem g hg', hcase⟩
        unfold checkGroups
        rw [if_neg (by simpa using hg), if_neg (by simpa using hl)]
        exact he
      · refine ⟨g.label ++ " not found in " ++ String.intercalate ", " lk, ?_,
          g, List.mem_cons_self g gs,
          Or.inr ⟨hl, String.intercalate ", " lk, rfl⟩⟩
        unfold checkGroups
        rw [if_neg (by simpa using hg), if_pos hl]
    · refine ⟨g.group ++ " not found in " ++ String.intercalate ", " cgs, ?_,
        g, List.mem_cons_self g gs,
        Or.inl ⟨hg, String.intercalate ", " cgs, rfl⟩⟩
      unfold checkGroups
      rw [if_pos hg]

/-! ### Stability of the priority sort -/

theorem filter_orderedInsert (p : Int) (a : LabelDef) (l : List LabelDef) :
    (List.orderedInsert prioGE a l).filter (fun x => decide (x.priority = p)) =
      if a.priority = p then
        a :: l.filter (fun x => decide (x.priority = p))
      else l.filter (fun x => decide (x.priority = p)) := by
  induction l with
  | nil =>
    by_cases hap : a.priority = p <;> simp [List.orderedInsert, hap]
  | cons b l ih =>
    by_cases hr : prioGE a b
    · by_cases hap : a.priority = p <;>
        simp [List.orderedInsert, hr, hap, List.filter_cons]
    · by_cases hap : a.priority = p
      · have hbp : ¬ b.priority = p := fun hb => hr (by simp [prioGE, hb, hap])
        simp [List.orderedInsert, hr, List.filter_cons, ih, hap, hbp]
      · simp [List.orderedInsert, hr, List.filter_cons, ih, hap]

theorem filter_sortByPriorityDesc (p : Int) (ls : List LabelDef) :
    (sortByPriorityDesc ls).filter (fun x => decide (x.priority = p)) =
      ls.filter (fun x => decide (x.priority = p)) := by
  induction ls with
  | nil => rfl
  | cons a ls ih =>
    unfold sortByPriorityDesc at *
    simp only [List.insertionSort]
    rw [filter_orderedInsert]
    by_cases hap : a.priority = p
    · simp [hap, ih, List.filter_cons]
    · simp [hap, ih, List.filter_cons]

theorem head_sortByPriorityDesc (ls : List LabelDef) :
    (sortByPriorityDesc ls).head? =
      (ls.filter (fun l => decide (∀ m ∈ ls, m.priority ≤ l.priority))).head? := by
  cases hs : sortByPriorityDesc ls with
  | nil =>
    have hp : List.Perm (List.insertionSort prioGE ls) ls :=
      List.perm_insertionSort prioGE ls
    rw [show List.insertionSort prioGE ls = sortByPriorityDesc ls from rfl, hs] at hp
    have hnil : ls = [] := hp.symm.eq_nil
    rw [hnil]
    rfl
  | cons h t =>
    have hsort : List.insertionSort prioGE ls = h :: t := hs
    have hmem : h ∈ ls := (List.mem_insertionSort prioGE).mp
      (by rw [hsort]; exact List.mem_cons_self h t)
    have hsorted : List.Sorted prioGE (h :: t) := by
      rw [← hsort]; exact List.sorted_insertionSort prioGE ls
    have hmax : ∀ m ∈ ls, m.priority ≤ h.priority := by
      intro m hm
      have hm2 : m ∈ h :: t := by
        rw [← hsort]; exact (List.mem_insertionSort prioGE).mpr hm
      rcases List.mem_cons.mp hm2 with hm2 | hm2
      · rw [hm2]
      · exact (List.sorted_cons.mp hsorted).1 m hm2
    have hfc : ls.filter (fun l => decide (∀ m ∈ ls, m.priority ≤ l.priority)) =
        ls.filter (fun l => decide (l.priority = h.priority)) := by
      apply List.filter_congr
      intro l hl
      apply decide_eq_decide.mpr
      constructor
      · intro hall
        exact le_antisymm (hmax l hl) (hall h hmem)
      · intro heq m hm
        rw [heq]
        exact hmax m hm
    rw [hfc, ← filter_sortByPriorityDesc h.priority ls, hs]
    simp [List.filter_cons]

theorem collectLabels_sublist (lookup : List (String × LabelDef))
    (commits : List String) :
    (collectLabels lookup commits).Sublist (lookup.map Prod.snd) := by
  induction lookup with
  | nil => simp [collectLabels]
  | cons ml lookup ih =>
    unfold collectLabels at *
    by_cases hc : commits.any (fun c => patternMatch ml.1 c) = true
    · simp only [List.filterMap_cons, hc, if_true, List.map_cons]
      exact List.Sublist.cons₂ ml.2 ih
    · simp only [List.filterMap_cons, hc, if_false, List.map_cons]
      exact List.Sublist.cons ml.2 ih

theorem ciStrip_append_self (ts rest : List Char) :
    ciStrip ts (ts ++ rest) = some rest := by
  induction ts with
  | nil => rfl
  | cons t ts ih => simp [ciStrip, ciEq, ih]

/-! ### Concrete example inputs used by witnesses -/

/-- Three commit types as a changelog configuration would supply them. -/
def exTypes : List CommitType :=
  [⟨"Added", "feat"⟩, ⟨"Fixed", "fix"⟩, ⟨"Docs", "docs"⟩]

/-- Three labels with priorities 10, 5, 1, one group mapping each. -/
def exCfg : Config :=
  ⟨[⟨"L10", 10⟩, ⟨"L5", 5⟩, ⟨"L1", 1⟩],
   [⟨"Added", "L10"⟩, ⟨"Fixed", "L5"⟩, ⟨"Docs", "L1"⟩], none, false⟩

/-- Same configuration with `only_highest_priority` enabled. -/
def exCfgHighest : Config :=
  ⟨[⟨"L10", 10⟩, ⟨"L5", 5⟩, ⟨"L1", 1⟩],
   [⟨"Added", "L10"⟩, ⟨"Fixed", "L5"⟩, ⟨"Docs", "L1"⟩], none, true⟩

/-- A configuration with a `disable_on` sentinel. -/
def exCfgDisable : Config := ⟨[⟨"L10", 10⟩], [], some "wip", false⟩

/-- A configuration whose group mapping references an unknown group. -/
def exCfgBad : Config := ⟨[⟨"L10", 10⟩], [⟨"Unknown", "L10"⟩], none, false⟩

/-- A context where each configured category is matched by a commit and
one unmanaged label is present. -/
def exCtx : PRContext :=
  ⟨some "1", ["other"], ["feat: a", "fix: b", "docs: c"]⟩

/-- A context carrying a label that contains the sentinel. -/
def exCtxDisable : PRContext := ⟨some "1", ["work-wip-now"], ["feat: a"]⟩

/-- A context with an empty (falsy) pull-request identifier. -/
def exCtxNoPR : PRContext := ⟨some "", ["x"], []⟩

/-- A context whose single commit matches no configured category; one
managed and one unmanaged label are currently set. -/
def exCtxNoMatch : PRContext := ⟨some "1", ["other", "L10"], ["chore: z"]⟩

/-! ### The claims -/

/-- C1: for every run input that resolves a label set, the resolved set
is a superset of `unique_labels` (the current PR labels outside the
configured label universe); no unmanaged label is dropped. -/
theorem resolved_superset_unique (types : List CommitType) (cfg : Config)
    (ctx : PRContext) (S : Finset String)
    (h : (run types cfg ctx).2 = Except.ok (RunOutcome.applied S)) :
    uniqueLabelsOf cfg ctx.prLabels ⊆ S := by
  rw [run_snd_applied h]
  exact Finset.subset_union_right

/-- C1 witness: on the concrete example run, the resolved set exists and
contains the unmanaged label set. -/
theorem resolved_superset_unique_witness :
    (run exTypes exCfg exCtx).2 =
        Except.ok (RunOutcome.applied (resolvedSet exTypes exCfg exCtx)) ∧
      uniqueLabelsOf exCfg exCtx.prLabels ⊆ resolvedSet exTypes exCfg exCtx :=
  ⟨by decide, resolved_superset_unique exTypes exCfg exCtx _ (by decide)⟩

/-- C2 counterexample: the claim states the matcher accepts only `:` or
`-` separators, but the character class `[:|-]` also accepts the literal
bar, so `"feat| x"` matches the `feat` pattern while failing the claimed
characterisation. -/
theorem matcher_claim_counterexample :
    patternMatch "feat" "feat| x" = true ∧
      ¬ SpecMatch [':', '-'] "feat" "feat| x" := by
  refine ⟨by decide, fun h => ?_⟩
  have hb := (matchKeyword_iff [':', '-'] "feat" "feat| x").mpr h
  exact absurd hb (by decide)

/-- C2 amended: the compiled case-insensitive matcher for keyword `t`
matches `m` iff `m` begins with `t` immediately followed by optional
whitespace and then a `:`, `|` or `-` separator, anchored at the start;
`"feat: add x"` and `"feat-123: add x"` match while
`"preface feat: x"` and `"feature: something"` do not. -/
theorem matcher_spec_amended :
    (∀ t m, patternMatch t m = true ↔ SpecMatch codeSepChars t m) ∧
      patternMatch "feat" "feat: add x" = true ∧
      patternMatch "feat" "feat-123: add x" = true ∧
      patternMatch "feat" "preface feat: x" = false ∧
      patternMatch "feat" "feature: something" = false :=
  ⟨fun t m => matchKeyword_iff codeSepChars t m,
    by decide, by decide, by decide, by decide⟩

/-- C3: a configuration whose group mappings reference an unknown group
or label makes the run fail with an error naming the missing reference,
with no network call performed. -/
theorem config_reference_error (types : List CommitType) (cfg : Config)
    (ctx : PRContext)
    (h : ¬ ∀ g ∈ cfg.groups, g.group ∈ types.map CommitType.group ∧
        g.label ∈ cfg.labels.map LabelDef.name) :
    ∃ e, run types cfg ctx = ([], Except.error e) ∧
      ∃ g ∈ cfg.groups,
        (g.group ∉ types.map CommitType.group ∧
          ∃ s, e = g.group ++ " not found in " ++ s) ∨
        (g.label ∉ cfg.labels.map LabelDef.name ∧
          ∃ s, e = g.label ++ " not found in " ++ s) := by
  rcases checkGroups_error (types.map CommitType.group)
      (cfg.labels.map LabelDef.name) h with ⟨e, he, hcase⟩
  refine ⟨e, ?_, hcase⟩
  unfold run
  rw [he]

/-- C3 witness: the bad configuration aborts with an error naming
`Unknown`, and the network-call trace is empty. -/
theorem config_reference_error_witness :
    ∃ e, run exTypes exCfgBad exCtx = ([], Except.error e) ∧
      ∃ g ∈ exCfgBad.groups,
        (g.group ∉ exTypes.map CommitType.group ∧
          ∃ s, e = g.group ++ " not found in " ++ s) ∨
        (g.label ∉ exCfgBad.labels.map LabelDef.name ∧
          ∃ s, e = g.label ++ " not found in " ++ s) :=
  config_reference_error exTypes exCfgBad exCtx (by decide)

/-- C4: with labels of priorities 10, 5, 1 each matched by a commit, the
resolved set minus `unique_labels` holds all three names when
`only_highest_priority` is off, and exactly the priority-10 name when it
is on. -/
theorem priority_ordering_example :
    (run exTypes exCfg exCtx).2 =
        Except.ok (RunOutcome.applied (resolvedSet exTypes exCfg exCtx)) ∧
      resolvedSet exTypes exCfg exCtx \ uniqueLabelsOf exCfg exCtx.prLabels =
        {"L10", "L5", "L1"} ∧
      (run exTypes exCfgHighest exCtx).2 =
        Except.ok (RunOutcome.applied (resolvedSet exTypes exCfgHighest exCtx)) ∧
      resolvedSet exTypes exCfgHighest exCtx \
          uniqueLabelsOf exCfgHighest exCtx.prLabels = {"L10"} := by
  decide

/-- C5: a configured non-empty disable-on sentinel contained in some
current label makes the run stop after fetching labels, mutating
nothing and exiting successfully. -/
theorem disable_sentinel_skips (types : List CommitType) (cfg : Config)
    (ctx : PRContext) (s : String)
    (hv : checkGroups cfg.groups (types.map CommitType.group)
        (cfg.labels.map LabelDef.name) = Except.ok ())
    (hp : falsyStr ctx.pullRequest = false)
    (hd : cfg.disable_on = some s) (hs : s ≠ "")
    (hx : ∃ x ∈ ctx.prLabels, strContains s x = true) :
    run types cfg ctx = ([NetCall.getLabels], Except.ok RunOutcome.disabled) ∧
      mainExit (run types cfg ctx).2 = (0, none) := by
  have hdc : disabledCheck cfg.disable_on ctx.prLabels = true := by
    rw [hd]
    unfold disabledCheck
    rcases hx with ⟨x, hx1, hx2⟩
    have hany : ctx.prLabels.any (fun x => strContains s x) = true :=
      List.any_eq_true.mpr ⟨x, hx1, hx2⟩
    simp [hany, hs]
  have hrun : run types cfg ctx =
      ([NetCall.getLabels], Except.ok RunOutcome.disabled) := by
    unfold run
    rw [hv, hp, hdc]
    simp
  refine ⟨hrun, ?_⟩
  rw [hrun]
  rfl

/-- C5 witness: the `wip` sentinel inside the label `work-wip-now` stops
the concrete run after the label fetch, with exit code 0. -/
theorem disable_sentinel_skips_witness :
    run exTypes exCfgDisable exCtxDisable =
        ([NetCall.getLabels], Except.ok RunOutcome.disabled) ∧
      mainExit (run exTypes exCfgDisable exCtxDisable).2 = (0, none) :=
  disable_sentinel_skips exTypes exCfgDisable exCtxDisable "wip" (by decide)
    (by decide) rfl (by decide) (by decide)

/-- C6: when no commit message matches any configured category pattern
(in particular for an empty commit list), the resolved set equals
exactly `unique_labels`: all managed labels are cleared. -/
theorem no_match_clears_managed (types : List CommitType) (cfg : Config)
    (ctx : PRContext) (S : Finset String)
    (hmatch : ∀ t ∈ types, ∀ c ∈ ctx.commits, patternMatch t.message c = false)
    (h : (run types cfg ctx).2 = Except.ok (RunOutcome.applied S)) :
    S = uniqueLabelsOf cfg ctx.prLabels := by
  rw [run_snd_applied h]
  have hcol : collectLabels (buildLookup types cfg.groups cfg.labels)
      ctx.commits = [] := by
    unfold collectLabels
    apply List.filterMap_eq_nil_iff.mpr
    intro ml hml
    have hany : ctx.commits.any (fun c => patternMatch ml.1 c) = false := by
      apply List.any_eq_false.mpr
      intro c hc
      rcases (mem_buildLookup hml).1 with ⟨t, ht, hmsg⟩
      rw [hmsg]
      simp [hmatch t ht c hc]
    simp [hany]
  simp [resolvedSet, resolveLabels, hcol, sortByPriorityDesc]

/-- C6 witness: a commit list matching no category leaves exactly the
unmanaged label, clearing the managed `L10`. -/
theorem no_match_clears_managed_witness :
    (∀ t ∈ exTypes, ∀ c ∈ exCtxNoMatch.commits,
        patternMatch t.message c = false) ∧
      resolvedSet exTypes exCfg exCtxNoMatch =
        uniqueLabelsOf exCfg exCtxNoMatch.prLabels :=
  ⟨by decide,
    no_match_clears_managed exTypes exCfg exCtxNoMatch _ (by decide) (by decide)⟩

/-- C7: the collected labels follow the declaration order of the group
mappings, and the priority sort is stable: its output is sorted by
descending priority, labels of equal priority keep their relative
order, and the head of the sorted list -- the single label kept under
`only_highest_priority` -- is the earliest-collected label of maximal
priority. -/
theorem stable_sort_priority :
    (∀ (lookup : List (String × LabelDef)) (commits : List String),
        (collectLabels lookup commits).Sublist (lookup.map Prod.snd)) ∧
      (∀ ls : List LabelDef, List.Sorted prioGE (sortByPriorityDesc ls)) ∧
      (∀ (ls : List LabelDef) (p : Int),
        (sortByPriorityDesc ls).filter (fun x => decide (x.priority = p)) =
          ls.filter (fun x => decide (x.priority = p))) ∧
      (∀ ls : List LabelDef,
        (sortByPriorityDesc ls).head? =
          (ls.filter
            (fun l => decide (∀ m ∈ ls, m.priority ≤ l.priority))).head?) :=
  ⟨collectLabels_sublist,
    fun ls => List.sorted_insertionSort prioGE ls,
    fun ls p => filter_sortByPriorityDesc p ls,
    head_sortByPriorityDesc⟩

/-- C8: with a valid configuration and no pull-request identifier, the
run fails with the business error, no network call happens, the process
exits with code 1, and the message carries the human-readable prefix. -/
theorem missing_pr_identifier_fatal (types : List CommitType) (cfg : Config)
    (ctx : PRContext)
    (hv : checkGroups cfg.groups (types.map CommitType.group)
        (cfg.labels.map LabelDef.name) = Except.ok ())
    (hp : falsyStr ctx.pullRequest = true) :
    run types cfg ctx = ([], Except.error "no PR identifier found") ∧
      mainExit (run types cfg ctx).2 =
        (1, some "❌ no PR identifier found") := by
  have hrun : run types cfg ctx =
      ([], Except.error "no PR identifier found") := by
    unfold run
    rw [hv, hp]
    simp
  refine ⟨hrun, ?_⟩
  rw [hrun]
  rfl

/-- C8 witness: the empty identifier aborts the concrete run with exit
code 1 and the prefixed message. -/
theorem missing_pr_identifier_fatal_witness :
    run exTypes exCfg exCtxNoPR = ([], Except.error "no PR identifier found") ∧
      mainExit (run exTypes exCfg exCtxNoPR).2 =
        (1, some "❌ no PR identifier found") :=
  missing_pr_identifier_fatal exTypes exCfg exCtxNoPR (by decide) (by decide)

/-- C9: every resolved set splits into matched names inside the
configured label universe and `unique_labels` outside it; the two parts
are disjoint. -/
theorem resolved_partition (types : List CommitType) (cfg : Config)
    (ctx : PRContext) (S : Finset String)
    (h : (run types cfg ctx).2 = Except.ok (RunOutcome.applied S)) :
    ∃ M : Finset String,
      S = M ∪ uniqueLabelsOf cfg ctx.prLabels ∧
      M ⊆ labelsKeyOf cfg ∧
      (∀ x ∈ uniqueLabelsOf cfg ctx.prLabels, x ∉ labelsKeyOf cfg) ∧
      Disjoint M (uniqueLabelsOf cfg ctx.prLabels) := by
  have hMK : ((resolveLabels types cfg ctx.commits).map LabelDef.name).toFinset
      ⊆ labelsKeyOf cfg := by
    intro x hx
    rcases List.mem_map.mp (List.mem_toFinset.mp hx) with ⟨l, hl, hname⟩
    have hlab : l ∈ cfg.labels := mem_resolveLabels hl
    unfold labelsKeyOf
    exact List.mem_toFinset.mpr (List.mem_map.mpr ⟨l, hlab, hname⟩)
  refine ⟨((resolveLabels types cfg ctx.commits).map LabelDef.name).toFinset,
    run_snd_applied h, hMK, ?_, ?_⟩
  · intro x hx
    exact (Finset.mem_sdiff.mp hx).2
  · rw [Finset.disjoint_left]
    intro x hx hux
    exact (Finset.mem_sdiff.mp hux).2 (hMK hx)

/-- C9 witness: the concrete resolved set partitions into the matched
names and the kept unmanaged label. -/
theorem resolved_partition_witness :
    (run exTypes exCfg exCtx).2 =
        Except.ok (RunOutcome.applied (resolvedSet exTypes exCfg exCtx)) ∧
      ∃ M : Finset String,
        resolvedSet exTypes exCfg exCtx =
            M ∪ uniqueLabelsOf exCfg exCtx.prLabels ∧
          M ⊆ labelsKeyOf exCfg ∧
          (∀ x ∈ uniqueLabelsOf exCfg exCtx.prLabels,
            x ∉ labelsKeyOf exCfg) ∧
          Disjoint M (uniqueLabelsOf exCfg exCtx.prLabels) :=
  ⟨by decide, resolved_partition exTypes exCfg exCtx _ (by decide)⟩

/-- C10: the compiled matcher allows at most one whitespace character
between the keyword and the separator: keyword, one space, colon
matches; keyword, two spaces, colon does not. -/
theorem at_most_one_whitespace (t r : String) :
    patternMatch t (t ++ " :" ++ r) = true ∧
      patternMatch t (t ++ "  :" ++ r) = false := by
  constructor
  · show matchKeyword codeSepChars t (t ++ " :" ++ r) = true
    unfold matchKeyword
    rw [String.data_append, String.data_append,
      show (" :" : String).data = [' ', ':'] from rfl, List.append_assoc,
      ciStrip_append_self]
    simp [sepTail, isPySpace, pySpaceChars, codeSepChars]
  · show matchKeyword codeSepChars t (t ++ "  :" ++ r) = false
    unfold matchKeyword
    rw [String.data_append, String.data_append,
      show ("  :" : String).data = [' ', ' ', ':'] from rfl, List.append_assoc,
      ciStrip_append_self]
    simp [sepTail, isPySpace, pySpaceChars, codeSepChars]
